import Mathlib

/-!
Shallow embedding of the repository source `roa_rendezvous_v31.py`: a Monte
Carlo simulator that estimates the expected meeting time of two random-walking
agents on a line under a heuristic "ROA field" interaction model.

Modelling conventions:
* Python floats are modelled as real numbers (exact arithmetic); `np.sin` and
  `np.cos` are `Real.sin` and `Real.cos`.
* The `None` return of the interaction solver becomes `Option ℝ`.
* The `np.random.choice([1, -1])` draws are made explicit as a stream
  `ds : ℕ → ℝ` of direction values, consumed in program order: agent A
  construction, agent B construction, then each in-loop re-planning call.
* The unbounded `while` loop of the driver is modelled with explicit fuel and
  returns `none` when the fuel runs out before the loop exits, so that every
  produced result corresponds to an actual loop exit of the source program.
-/

noncomputable section

namespace ROA

/-- The `gamma` constant of `get_roa_phase_intensity` (source line 10). -/
def gamma : ℝ := 1.61803398875

/-- `get_roa_phase_intensity(t, cycle_idx)` (source lines 3-16):
`abs(sin(t*gamma + cycle_idx) + 0.5*cos(t*cycle_idx/gamma))`. -/
def get_roa_phase_intensity (t : ℝ) (cycle_idx : ℕ) : ℝ :=
  |Real.sin (t * gamma + cycle_idx) + 0.5 * Real.cos (t * cycle_idx / gamma)|

/-- `solve_roa_phase_locked_physics` (source lines 17-51), the Interaction
Solver.  Returns `some offset` when a meeting is detected on this leg and
`none` otherwise.  The three branches are, in source order: the coincidence
shortcut, the field-superposition check, and the classical fallback. -/
def solve_roa_phase_locked_physics (t_now duration pA vA pB vB : ℝ)
    (idxA idxB : ℕ) (current_radius : ℝ) : Option ℝ :=
  let rel_pos := |pA - pB|
  if rel_pos < 1e-4 then
    some 0.0
  else
    let intensity_A := get_roa_phase_intensity t_now idxA
    let intensity_B := get_roa_phase_intensity t_now idxB
    let field_strength := (intensity_A + intensity_B) / 2.0 + 0.5
    let effective_radius := current_radius * field_strength * 2.5
    if rel_pos < effective_radius then
      some 0.001
    else
      let rel_vel := vA - vB
      if 1e-9 < |rel_vel| then
        let dt := (-(pA - pB)) / rel_vel
        if 0 ≤ dt ∧ dt ≤ duration then some dt else none
      else
        none

/-- The state of one `ROAPhaseAgent` (source lines 52-64). -/
structure ROAPhaseAgent where
  origin : ℝ
  pos : ℝ
  cycle : ℕ
  target : ℝ
  duration : ℝ
  velocity : ℝ
  timer : ℝ
  current_search_radius : ℝ

/-- `ROAPhaseAgent.engage_phase_drive` (source lines 65-81), with the
`np.random.choice([1, -1])` draw passed in as `direction`. -/
def ROAPhaseAgent.engage_phase_drive (a : ROAPhaseAgent) (direction : ℝ) :
    ROAPhaseAgent :=
  let radius : ℝ := 1.0 * 2 ^ a.cycle
  let target := a.origin + direction * radius
  let dist := |target - a.pos|
  let dur := dist / 1.0
  { a with
    current_search_radius := radius
    target := target
    duration := dur
    velocity := (target - a.pos) / dur
    timer := 0
    cycle := a.cycle + 1 }

/-- The constructor `ROAPhaseAgent.__init__(start_pos)` (source lines 53-64):
zero-initialise the state fields and immediately engage the drive, consuming
one direction draw. -/
def mkROAPhaseAgent (start_pos : ℝ) (direction : ℝ) : ROAPhaseAgent :=
  ROAPhaseAgent.engage_phase_drive
    { origin := start_pos, pos := start_pos, cycle := 0, target := 0,
      duration := 0, velocity := 0, timer := 0, current_search_radius := 0 }
    direction

/-- The mutable state of one trial of `simulate_v31_final_completion`:
global time `t`, both agents, and the index `k` of the next direction draw. -/
structure TrialState where
  t : ℝ
  A : ROAPhaseAgent
  B : ROAPhaseAgent
  k : ℕ

/-- Start of a trial (source lines 91-93): agent A at `0.0`, agent B at
`dist`; the two constructions consume draws `ds 0` and `ds 1`. -/
def initState (ds : ℕ → ℝ) (dist : ℝ) : TrialState :=
  { t := 0, A := mkROAPhaseAgent 0.0 (ds 0), B := mkROAPhaseAgent dist (ds 1),
    k := 2 }

/-- `dt = min(rem_A, rem_B)` of the loop body (source lines 97-99). -/
def legDt (s : TrialState) : ℝ :=
  min (s.A.duration - s.A.timer) (s.B.duration - s.B.timer)

/-- The position/timer update of one agent (source lines 114-117). -/
def advanceAgent (a : ROAPhaseAgent) (dt : ℝ) : ROAPhaseAgent :=
  { a with pos := a.pos + a.velocity * dt, timer := a.timer + dt }

/-- One iteration of the `while` loop body (source lines 96-122).  Returns the
successor state together with `some (global_t + hit)` when the solver reports
a meeting (in which case the state is returned unchanged and the loop stops)
and `none` when the trial goes on. -/
def trialStep (ds : ℕ → ℝ) (s : TrialState) : TrialState × Option ℝ :=
  match solve_roa_phase_locked_physics s.t (legDt s) s.A.pos s.A.velocity s.B.pos
      s.B.velocity s.A.cycle s.B.cycle
      (max s.A.current_search_radius s.B.current_search_radius) with
  | some hit => (s, some (s.t + hit))
  | none =>
    let A1 := advanceAgent s.A (legDt s)
    let B1 := advanceAgent s.B (legDt s)
    let AK : ROAPhaseAgent × ℕ :=
      if |A1.duration - A1.timer| < 1e-9 then
        (A1.engage_phase_drive (ds s.k), s.k + 1)
      else (A1, s.k)
    let BK : ROAPhaseAgent × ℕ :=
      if |B1.duration - B1.timer| < 1e-9 then
        (B1.engage_phase_drive (ds AK.2), AK.2 + 1)
      else (B1, AK.2)
    ({ t := s.t + legDt s, A := AK.1, B := BK.1, k := BK.2 }, none)

/-- The `while global_t < 1000.0` loop of one trial (source lines 96-124),
with explicit fuel.  Returns `some (recorded value, met)` when the loop exits
within the fuel bound: `met = true` when a meeting offset was recorded and
`met = false` when the loop exited by the time-horizon condition (in which
case the recorded value is the current global time, source lines 123-124). -/
def trialLoop (ds : ℕ → ℝ) : ℕ → TrialState → Option (ℝ × Bool)
  | 0, s => if s.t < 1000.0 then none else some (s.t, false)
  | fuel + 1, s =>
    if s.t < 1000.0 then
      match trialStep ds s with
      | (_, some m) => some (m, true)
      | (s1, none) => trialLoop ds fuel s1
    else
      some (s.t, false)

/-- One full trial (source lines 91-124): the value this trial appends to
`meeting_times`. -/
def runTrial (ds : ℕ → ℝ) (fuel : ℕ) (dist : ℝ) : Option ℝ :=
  (trialLoop ds fuel (initState ds dist)).map Prod.fst

/-- The list `meeting_times` after `n` trials (source lines 88-124), each
trial `i` using its own direction stream `dss i`. -/
def trialTimes (dss : ℕ → ℕ → ℝ) (fuel : ℕ) (dist : ℝ) : ℕ → Option (List ℝ)
  | 0 => some []
  | n + 1 =>
    match trialTimes dss fuel dist n, runTrial (dss n) fuel dist with
    | some l, some v => some (l ++ [v])
    | _, _ => none

/-- `simulate_v31_final_completion(trials, dist)` (source lines 82-125):
run the trials and return `np.mean(meeting_times)`, i.e. sum divided by
count. -/
def simulate_v31_final_completion (dss : ℕ → ℕ → ℝ) (fuel : ℕ) (trials : ℕ)
    (dist : ℝ) : Option ℝ :=
  (trialTimes dss fuel dist trials).map fun l => l.sum / (trials : ℝ)

/-- The trial state reached after `n` iterations of the loop body (the state
is left unchanged by iterations after a meeting is reported). -/
def iterState (ds : ℕ → ℝ) (dist : ℝ) : ℕ → TrialState
  | 0 => initState ds dist
  | n + 1 => (trialStep ds (iterState ds dist n)).1

/-- `n` further `engage_phase_drive` calls applied to an agent, consuming
direction draws `ds 0, ds 1, ...`. -/
def engageIter (ds : ℕ → ℝ) (a : ROAPhaseAgent) : ℕ → ROAPhaseAgent
  | 0 => a
  | n + 1 => (engageIter ds a n).engage_phase_drive (ds n)

/-- The timer invariant of one agent claimed by the spec:
`elapsed` lies in `[0, legDuration]`. -/
def AgentInv (a : ROAPhaseAgent) : Prop := 0 ≤ a.timer ∧ a.timer ≤ a.duration

/-- The timer invariant for both agents of a trial state. -/
def StateInv (s : TrialState) : Prop := AgentInv s.A ∧ AgentInv s.B

/-- The exact-arithmetic physical invariant of one agent at loop boundaries:
unit speed, an integer remaining leg time, position consistent with the
current target, and a target of the form `origin + e * 2 ^ (cycle - 1)` for a
direction `e` drawn from `{1, -1}`. -/
def AgentPhys (a : ROAPhaseAgent) : Prop :=
  (a.velocity = 1 ∨ a.velocity = -1) ∧
  (∃ m : ℕ, a.duration - a.timer = (m : ℝ)) ∧
  a.pos + a.velocity * (a.duration - a.timer) = a.target ∧
  (∃ e : ℝ, (e = 1 ∨ e = -1) ∧ a.target = a.origin + e * 2 ^ (a.cycle - 1)) ∧
  1 ≤ a.cycle

/-- The physical invariant for both agents of a trial state. -/
def StatePhys (s : TrialState) : Prop := AgentPhys s.A ∧ AgentPhys s.B

/-- The all-rightward direction stream: every draw is `+1`. -/
def ones : ℕ → ℝ := fun _ => 1

/-- A large initial separation used to exhibit a timeout trial. -/
def Dval : ℝ := 10 ^ 9

/-- The explicit trajectory of the trial started from `initState ones Dval`:
with every direction draw equal to `+1` both agents march rightward in
lockstep, the gap stays `Dval`, and the loop boundary times are
`0, 1, 2, 4, ..., 2 ^ (i - 1)`. -/
def traceState : ℕ → TrialState
  | 0 => ⟨0, ⟨0, 0, 1, 1, 1, 1, 0, 1⟩, ⟨Dval, Dval, 1, Dval + 1, 1, 1, 0, 1⟩, 2⟩
  | i + 1 => ⟨2 ^ i, ⟨0, 2 ^ i, i + 2, 2 ^ (i + 1), 2 ^ i, 1, 0, 2 ^ (i + 1)⟩,
      ⟨Dval, Dval + 2 ^ i, i + 2, Dval + 2 ^ (i + 1), 2 ^ i, 1, 0, 2 ^ (i + 1)⟩,
      2 * i + 4⟩

lemma intensity_nonneg (t : ℝ) (c : ℕ) : 0 ≤ get_roa_phase_intensity t c :=
  abs_nonneg _

lemma intensity_le (t : ℝ) (c : ℕ) : get_roa_phase_intensity t c ≤ 1.5 := by
  unfold get_roa_phase_intensity
  calc |Real.sin (t * gamma + c) + 0.5 * Real.cos (t * c / gamma)|
      ≤ |Real.sin (t * gamma + c)| + |0.5 * Real.cos (t * c / gamma)| := abs_add _ _
    _ ≤ 1 + 0.5 * 1 := by
        gcongr
        · exact Real.abs_sin_le_one _
        · rw [abs_mul]
          have : |(0.5 : ℝ)| = 0.5 := by norm_num
          rw [this]
          have := Real.abs_cos_le_one (t * c / gamma)
          nlinarith [Real.abs_cos_le_one (t * c / gamma), abs_nonneg (Real.cos (t * c / gamma))]
    _ ≤ 1.5 := by norm_num

lemma field_strength_le (t : ℝ) (cA cB : ℕ) :
    (get_roa_phase_intensity t cA + get_roa_phase_intensity t cB) / 2.0 + 0.5 ≤ 2 := by
  have hA := intensity_le t cA
  have hB := intensity_le t cB
  norm_num at hA hB ⊢
  linarith

lemma solve_none_far (t d p v q : ℝ) (iA iB : ℕ) (r : ℝ)
    (h4 : 1e-4 ≤ |p - q|) (hr : 0 ≤ r) (hfar : 5 * r ≤ |p - q|) :
    solve_roa_phase_locked_physics t d p v q v iA iB r = none := by
  unfold solve_roa_phase_locked_physics
  rw [if_neg (not_lt.2 h4)]
  have heff : r * ((get_roa_phase_intensity t iA + get_roa_phase_intensity t iB) / 2.0 + 0.5) * 2.5 ≤ |p - q| := by
    have h2 := field_strength_le t iA iB
    nlinarith [intensity_nonneg t iA, intensity_nonneg t iB]
  rw [if_neg (not_lt.2 heff)]
  have hv : v - v = 0 := by ring
  rw [hv]
  norm_num

lemma engage_eval_pos (o q : ℝ) (c : ℕ) (tg dn v th r : ℝ) (hq : q < o + 2 ^ c) :
    ROAPhaseAgent.engage_phase_drive ⟨o, q, c, tg, dn, v, th, r⟩ 1
    = ⟨o, q, c + 1, o + 2 ^ c, o + 2 ^ c - q, 1, 0, 2 ^ c⟩ := by
  unfold ROAPhaseAgent.engage_phase_drive
  have e0 : (1.0 : ℝ) * 2 ^ c = 2 ^ c := by norm_num
  simp only [e0]
  have e1 : o + 1 * 2 ^ c = o + 2 ^ c := by ring
  simp only [e1]
  have e2 : |o + 2 ^ c - q| = o + 2 ^ c - q := abs_of_pos (by linarith)
  simp only [e2]
  have e3 : (o + 2 ^ c - q) / 1.0 = o + 2 ^ c - q := by norm_num
  simp only [e3]
  have e4 : (o + 2 ^ c - q) / (o + 2 ^ c - q) = 1 := div_self (by linarith)
  simp only [e4]

set_option maxHeartbeats 1000000 in
lemma trace_step_general (p d r t : ℝ) (c k : ℕ)
    (hr0 : 0 ≤ r) (hfar : 5 * r ≤ Dval)
    (hpd : p + d < 2 ^ c) :
    trialStep ones
      ⟨t, ⟨0, p, c, p + d, d, 1, 0, r⟩, ⟨Dval, Dval + p, c, Dval + p + d, d, 1, 0, r⟩, k⟩
    = (⟨t + d, ⟨0, p + d, c + 1, 2 ^ c, 2 ^ c - (p + d), 1, 0, 2 ^ c⟩,
        ⟨Dval, Dval + p + d, c + 1, Dval + 2 ^ c, 2 ^ c - (p + d), 1, 0, 2 ^ c⟩, k + 2⟩, none) := by
  have hDpos : (0:ℝ) ≤ Dval := by norm_num [Dval]
  have habs : |p - (Dval + p)| = Dval := by
    have h : p - (Dval + p) = -Dval := by ring
    rw [h, abs_neg, abs_of_nonneg hDpos]
  have hsolve : solve_roa_phase_locked_physics t d p 1 (Dval + p) 1 c c r = none := by
    apply solve_none_far
    · rw [habs]; norm_num [Dval]
    · exact hr0
    · rw [habs]; exact hfar
  unfold trialStep
  dsimp only [legDt]
  simp only [sub_zero, min_self, max_self]
  rw [hsolve]
  dsimp only [advanceAgent]
  simp only [zero_add, sub_self, abs_zero, one_mul, ones]
  rw [if_pos (by norm_num : (0:ℝ) < 1e-9)]
  rw [if_pos (by norm_num : (0:ℝ) < 1e-9)]
  rw [engage_eval_pos 0 (p + d) c _ _ _ _ _ (by linarith)]
  dsimp only
  rw [engage_eval_pos Dval (Dval + p + d) c _ _ _ _ _ (by linarith [hpd] )]
  simp only [Prod.mk.injEq, TrialState.mk.injEq, ROAPhaseAgent.mk.injEq]
  norm_num
  ring

lemma initState_eq_trace : initState ones Dval = traceState 0 := by
  unfold initState mkROAPhaseAgent traceState ones
  rw [engage_eval_pos 0.0 0.0 0 0 0 0 0 0 (by norm_num)]
  rw [engage_eval_pos Dval Dval 0 0 0 0 0 0 (by norm_num)]
  simp only [TrialState.mk.injEq, ROAPhaseAgent.mk.injEq]
  norm_num

lemma trace_step_at (i : ℕ) (hi : i ≤ 10) :
    trialStep ones (traceState i) = (traceState (i + 1), none) := by
  match i with
  | 0 =>
    have h0 : traceState 0
        = ⟨0, ⟨0, 0, 1, 0 + 1, 1, 1, 0, 1⟩, ⟨Dval, Dval + 0, 1, Dval + 0 + 1, 1, 1, 0, 1⟩, 2⟩ := by
      unfold traceState
      simp only [TrialState.mk.injEq, ROAPhaseAgent.mk.injEq]
      norm_num
    rw [h0, trace_step_general 0 1 1 0 1 2 (by norm_num) (by norm_num [Dval]) (by norm_num)]
    unfold traceState
    simp only [Prod.mk.injEq, TrialState.mk.injEq, ROAPhaseAgent.mk.injEq]
    norm_num
  | j + 1 =>
    have hj : j ≤ 9 := by omega
    have hshape : traceState (j + 1)
        = ⟨(2:ℝ) ^ j, ⟨0, 2 ^ j, j + 2, 2 ^ j + 2 ^ j, 2 ^ j, 1, 0, 2 ^ (j + 1)⟩,
            ⟨Dval, Dval + 2 ^ j, j + 2, Dval + 2 ^ j + 2 ^ j, 2 ^ j, 1, 0, 2 ^ (j + 1)⟩,
            2 * j + 4⟩ := by
      unfold traceState
      simp only [TrialState.mk.injEq, ROAPhaseAgent.mk.injEq]
      repeat' apply And.intro
      all_goals first | rfl | ring | omega
    have hfar : 5 * (2:ℝ) ^ (j + 1) ≤ Dval := by
      have hle : (2:ℝ) ^ (j + 1) ≤ 2 ^ 10 := by
        apply pow_le_pow_right₀ (by norm_num) (by omega)
      have : (5:ℝ) * 2 ^ (j + 1) ≤ 5 * 2 ^ 10 := by linarith
      unfold Dval
      norm_num at this ⊢
      linarith
    have hpd : (2:ℝ) ^ j + 2 ^ j < 2 ^ (j + 2) := by
      have h1 : (0:ℝ) < 2 ^ j := by positivity
      have : (2:ℝ) ^ (j + 2) = 4 * 2 ^ j := by ring
      linarith [this]
    have hstep := trace_step_general ((2:ℝ) ^ j) ((2:ℝ) ^ j) ((2:ℝ) ^ (j + 1)) ((2:ℝ) ^ j)
      (j + 2) (2 * j + 4) (by positivity) hfar hpd
    rw [hshape, hstep]
    unfold traceState
    simp only [Prod.mk.injEq, TrialState.mk.injEq, ROAPhaseAgent.mk.injEq]
    repeat' apply And.intro
    all_goals first | rfl | ring | omega

lemma traceState_t_lt (i : ℕ) (hi : i ≤ 10) : (traceState i).t < 1000.0 := by
  match i with
  | 0 => norm_num [traceState]
  | j + 1 =>
    unfold traceState
    have hle : (2:ℝ) ^ j ≤ 2 ^ 9 := pow_le_pow_right₀ (by norm_num) (by omega)
    have : ((2:ℝ) ^ 9) = 512 := by norm_num
    simp only
    norm_num
    linarith

lemma trace_loop_step (i f : ℕ) (hi : i ≤ 10) :
    trialLoop ones (f + 1) (traceState i) = trialLoop ones f (traceState (i + 1)) := by
  conv_lhs => rw [trialLoop]
  rw [if_pos (traceState_t_lt i hi), trace_step_at i hi]

lemma trace_loop_end : trialLoop ones 1 (traceState 11) = some (1024, false) := by
  unfold trialLoop
  rw [if_neg]
  · unfold traceState
    norm_num
  · unfold traceState
    norm_num

lemma trace_loop_full : trialLoop ones 12 (traceState 0) = some (1024, false) := by
  rw [trace_loop_step 0 11 (by omega), trace_loop_step 1 10 (by omega),
    trace_loop_step 2 9 (by omega), trace_loop_step 3 8 (by omega),
    trace_loop_step 4 7 (by omega), trace_loop_step 5 6 (by omega),
    trace_loop_step 6 5 (by omega), trace_loop_step 7 4 (by omega),
    trace_loop_step 8 3 (by omega), trace_loop_step 9 2 (by omega),
    trace_loop_step 10 1 (by omega), trace_loop_end]

lemma solve_field_branch (t d pA vA pB vB : ℝ) (iA iB : ℕ) (r : ℝ)
    (h1 : ¬ |pA - pB| < 1e-4)
    (h2 : |pA - pB| < r * ((get_roa_phase_intensity t iA + get_roa_phase_intensity t iB) / 2.0 + 0.5) * 2.5) :
    solve_roa_phase_locked_physics t d pA vA pB vB iA iB r = some 0.001 := by
  unfold solve_roa_phase_locked_physics
  rw [if_neg h1, if_pos h2]

lemma solve_first_zero (t d pA vA pB vB : ℝ) (iA iB : ℕ) (r : ℝ)
    (hp : pA = pB) :
    solve_roa_phase_locked_physics t d pA vA pB vB iA iB r = some 0.0 := by
  unfold solve_roa_phase_locked_physics
  rw [if_pos (by rw [hp, sub_self, abs_zero]; norm_num)]

lemma trialStep_coincident (ds : ℕ → ℝ) (s : TrialState) (hp : s.A.pos = s.B.pos) :
    trialStep ds s = (s, some (s.t + 0.0)) := by
  unfold trialStep
  rw [solve_first_zero _ _ _ _ _ _ _ _ _ hp]

lemma runTrial_zero (ds : ℕ → ℝ) (f : ℕ) : runTrial ds (f + 1) 0 = some 0 := by
  unfold runTrial
  conv_lhs => rw [trialLoop]
  rw [if_pos (by norm_num [initState] : (initState ds 0).t < 1000.0)]
  rw [trialStep_coincident ds _ (by norm_num [initState, mkROAPhaseAgent, ROAPhaseAgent.engage_phase_drive])]
  have ht : (initState ds 0).t = 0 := rfl
  rw [ht]
  norm_num

lemma trialTimes_zero (dss : ℕ → ℕ → ℝ) (f n : ℕ) :
    trialTimes dss (f + 1) 0 n = some (List.replicate n 0) := by
  induction n with
  | zero => rfl
  | succ m ih =>
    show trialTimes dss (f + 1) 0 (m + 1) = _
    unfold trialTimes
    rw [ih, runTrial_zero]
    rw [List.replicate_succ']

lemma simulate_zero (dss : ℕ → ℕ → ℝ) (f n : ℕ) :
    simulate_v31_final_completion dss (f + 1) n 0 = some 0 := by
  unfold simulate_v31_final_completion
  rw [trialTimes_zero]
  simp [List.sum_replicate]

lemma trialLoop_timeout (ds : ℕ → ℝ) (fuel : ℕ) :
    ∀ (s : TrialState) (v : ℝ), trialLoop ds fuel s = some (v, false) → 1000.0 ≤ v := by
  induction fuel with
  | zero =>
    intro s v h
    unfold trialLoop at h
    split_ifs at h with h1
    injection h with h2
    injection h2 with hv hb
    rw [← hv]
    exact not_lt.1 h1
  | succ f ih =>
    intro s v h
    conv at h => lhs; rw [trialLoop]
    split_ifs at h with h1
    · rcases hstep : trialStep ds s with ⟨s1, o⟩
      rw [hstep] at h
      match o with
      | some m => simp at h
      | none => exact ih s1 v h
    · injection h with h2
      injection h2 with hv hb
      rw [← hv]
      exact not_lt.1 h1

lemma engage_radius (a : ROAPhaseAgent) (dir : ℝ) :
    (a.engage_phase_drive dir).current_search_radius = 2 ^ a.cycle := by
  unfold ROAPhaseAgent.engage_phase_drive
  norm_num

lemma engage_cycle (a : ROAPhaseAgent) (dir : ℝ) :
    (a.engage_phase_drive dir).cycle = a.cycle + 1 := rfl

lemma radius_after_n (ds : ℕ → ℝ) (p d0 : ℝ) (n : ℕ) :
    (engageIter ds (mkROAPhaseAgent p d0) n).current_search_radius = 2 ^ n ∧
    (engageIter ds (mkROAPhaseAgent p d0) n).cycle = n + 1 := by
  induction n with
  | zero =>
    constructor
    · show (mkROAPhaseAgent p d0).current_search_radius = 2 ^ 0
      unfold mkROAPhaseAgent
      rw [engage_radius]
    · rfl
  | succ m ih =>
    constructor
    · show ((engageIter ds (mkROAPhaseAgent p d0) m).engage_phase_drive (ds m)).current_search_radius = 2 ^ (m + 1)
      rw [engage_radius, ih.2]
    · show ((engageIter ds (mkROAPhaseAgent p d0) m).engage_phase_drive (ds m)).cycle = m + 1 + 1
      rw [engage_cycle, ih.2]

lemma engage_timer (a : ROAPhaseAgent) (dir : ℝ) : (a.engage_phase_drive dir).timer = 0 := rfl

lemma engage_duration_nonneg (a : ROAPhaseAgent) (dir : ℝ) :
    0 ≤ (a.engage_phase_drive dir).duration := by
  show 0 ≤ |a.origin + dir * (1.0 * 2 ^ a.cycle) - a.pos| / 1.0
  positivity

lemma engage_inv (a : ROAPhaseAgent) (dir : ℝ) : AgentInv (a.engage_phase_drive dir) :=
  ⟨le_of_eq (engage_timer a dir).symm, by rw [engage_timer]; exact engage_duration_nonneg a dir⟩

lemma mk_inv (p dir : ℝ) : AgentInv (mkROAPhaseAgent p dir) := engage_inv _ _

lemma initState_inv (ds : ℕ → ℝ) (dist : ℝ) : StateInv (initState ds dist) :=
  ⟨mk_inv _ _, mk_inv _ _⟩

lemma legDt_nonneg (s : TrialState) (hs : StateInv s) : 0 ≤ legDt s :=
  le_min (by linarith [hs.1.2]) (by linarith [hs.2.2])

lemma advance_inv (s : TrialState) (hs : StateInv s) :
    AgentInv (advanceAgent s.A (legDt s)) ∧ AgentInv (advanceAgent s.B (legDt s)) := by
  have h0 := legDt_nonneg s hs
  constructor
  · constructor
    · show 0 ≤ s.A.timer + legDt s
      linarith [hs.1.1]
    · show s.A.timer + legDt s ≤ s.A.duration
      have := min_le_left (s.A.duration - s.A.timer) (s.B.duration - s.B.timer)
      unfold legDt at *
      linarith
  · constructor
    · show 0 ≤ s.B.timer + legDt s
      linarith [hs.2.1]
    · show s.B.timer + legDt s ≤ s.B.duration
      have := min_le_right (s.A.duration - s.A.timer) (s.B.duration - s.B.timer)
      unfold legDt at *
      linarith

lemma trialStep_none_tt (ds : ℕ → ℝ) (s : TrialState)
    (hsolve : solve_roa_phase_locked_physics s.t (legDt s) s.A.pos s.A.velocity s.B.pos
      s.B.velocity s.A.cycle s.B.cycle
      (max s.A.current_search_radius s.B.current_search_radius) = none)
    (hA : |(advanceAgent s.A (legDt s)).duration - (advanceAgent s.A (legDt s)).timer| < 1e-9)
    (hB : |(advanceAgent s.B (legDt s)).duration - (advanceAgent s.B (legDt s)).timer| < 1e-9) :
    trialStep ds s = (⟨s.t + legDt s, (advanceAgent s.A (legDt s)).engage_phase_drive (ds s.k),
      (advanceAgent s.B (legDt s)).engage_phase_drive (ds (s.k + 1)), s.k + 2⟩, none) := by
  unfold trialStep
  rw [hsolve]
  dsimp only
  rw [if_pos hA]
  dsimp only
  rw [if_pos hB]

lemma trialStep_none_tf (ds : ℕ → ℝ) (s : TrialState)
    (hsolve : solve_roa_phase_locked_physics s.t (legDt s) s.A.pos s.A.velocity s.B.pos
      s.B.velocity s.A.cycle s.B.cycle
      (max s.A.current_search_radius s.B.current_search_radius) = none)
    (hA : |(advanceAgent s.A (legDt s)).duration - (advanceAgent s.A (legDt s)).timer| < 1e-9)
    (hB : ¬ |(advanceAgent s.B (legDt s)).duration - (advanceAgent s.B (legDt s)).timer| < 1e-9) :
    trialStep ds s = (⟨s.t + legDt s, (advanceAgent s.A (legDt s)).engage_phase_drive (ds s.k),
      advanceAgent s.B (legDt s), s.k + 1⟩, none) := by
  unfold trialStep
  rw [hsolve]
  dsimp only
  rw [if_pos hA]
  dsimp only
  rw [if_neg hB]

lemma trialStep_none_ft (ds : ℕ → ℝ) (s : TrialState)
    (hsolve : solve_roa_phase_locked_physics s.t (legDt s) s.A.pos s.A.velocity s.B.pos
      s.B.velocity s.A.cycle s.B.cycle
      (max s.A.current_search_radius s.B.current_search_radius) = none)
    (hA : ¬ |(advanceAgent s.A (legDt s)).duration - (advanceAgent s.A (legDt s)).timer| < 1e-9)
    (hB : |(advanceAgent s.B (legDt s)).duration - (advanceAgent s.B (legDt s)).timer| < 1e-9) :
    trialStep ds s = (⟨s.t + legDt s, advanceAgent s.A (legDt s),
      (advanceAgent s.B (legDt s)).engage_phase_drive (ds s.k), s.k + 1⟩, none) := by
  unfold trialStep
  rw [hsolve]
  dsimp only
  rw [if_neg hA]
  dsimp only
  rw [if_pos hB]

lemma trialStep_none_ff (ds : ℕ → ℝ) (s : TrialState)
    (hsolve : solve_roa_phase_locked_physics s.t (legDt s) s.A.pos s.A.velocity s.B.pos
      s.B.velocity s.A.cycle s.B.cycle
      (max s.A.current_search_radius s.B.current_search_radius) = none)
    (hA : ¬ |(advanceAgent s.A (legDt s)).duration - (advanceAgent s.A (legDt s)).timer| < 1e-9)
    (hB : ¬ |(advanceAgent s.B (legDt s)).duration - (advanceAgent s.B (legDt s)).timer| < 1e-9) :
    trialStep ds s = (⟨s.t + legDt s, advanceAgent s.A (legDt s),
      advanceAgent s.B (legDt s), s.k⟩, none) := by
  unfold trialStep
  rw [hsolve]
  dsimp only
  rw [if_neg hA]
  dsimp only
  rw [if_neg hB]

lemma trialStep_some (ds : ℕ → ℝ) (s : TrialState) (m : ℝ)
    (hsolve : solve_roa_phase_locked_physics s.t (legDt s) s.A.pos s.A.velocity s.B.pos
      s.B.velocity s.A.cycle s.B.cycle
      (max s.A.current_search_radius s.B.current_search_radius) = some m) :
    trialStep ds s = (s, some (s.t + m)) := by
  unfold trialStep
  rw [hsolve]

lemma step_inv (ds : ℕ → ℝ) (s s' : TrialState) (o : Option ℝ)
    (h : trialStep ds s = (s', o)) (hs : StateInv s) : StateInv s' := by
  rcases hsolve : solve_roa_phase_locked_physics s.t (legDt s) s.A.pos s.A.velocity s.B.pos
      s.B.velocity s.A.cycle s.B.cycle
      (max s.A.current_search_radius s.B.current_search_radius) with _ | m
  · by_cases hA : |(advanceAgent s.A (legDt s)).duration - (advanceAgent s.A (legDt s)).timer| < 1e-9 <;>
    by_cases hB : |(advanceAgent s.B (legDt s)).duration - (advanceAgent s.B (legDt s)).timer| < 1e-9
    · rw [trialStep_none_tt ds s hsolve hA hB] at h
      injection h with h1 h2
      rw [← h1]
      exact ⟨engage_inv _ _, engage_inv _ _⟩
    · rw [trialStep_none_tf ds s hsolve hA hB] at h
      injection h with h1 h2
      rw [← h1]
      exact ⟨engage_inv _ _, (advance_inv s hs).2⟩
    · rw [trialStep_none_ft ds s hsolve hA hB] at h
      injection h with h1 h2
      rw [← h1]
      exact ⟨(advance_inv s hs).1, engage_inv _ _⟩
    · rw [trialStep_none_ff ds s hsolve hA hB] at h
      injection h with h1 h2
      rw [← h1]
      exact ⟨(advance_inv s hs).1, (advance_inv s hs).2⟩
  · rw [trialStep_some ds s m hsolve] at h
    injection h with h1 h2
    rw [← h1]
    exact hs

lemma step_replan (ds : ℕ → ℝ) (s s' : TrialState)
    (h : trialStep ds s = (s', none)) :
    (|(advanceAgent s.A (legDt s)).duration - (advanceAgent s.A (legDt s)).timer| < 1e-9 →
      s'.A = (advanceAgent s.A (legDt s)).engage_phase_drive (ds s.k) ∧
      s'.A.timer = 0 ∧ s'.A.cycle = s.A.cycle + 1) ∧
    (|(advanceAgent s.B (legDt s)).duration - (advanceAgent s.B (legDt s)).timer| < 1e-9 →
      s'.B.timer = 0 ∧ s'.B.cycle = s.B.cycle + 1) := by
  rcases hsolve : solve_roa_phase_locked_physics s.t (legDt s) s.A.pos s.A.velocity s.B.pos
      s.B.velocity s.A.cycle s.B.cycle
      (max s.A.current_search_radius s.B.current_search_radius) with _ | m
  · by_cases hA : |(advanceAgent s.A (legDt s)).duration - (advanceAgent s.A (legDt s)).timer| < 1e-9 <;>
    by_cases hB : |(advanceAgent s.B (legDt s)).duration - (advanceAgent s.B (legDt s)).timer| < 1e-9
    · rw [trialStep_none_tt ds s hsolve hA hB] at h
      injection h with h1 h2
      rw [← h1]
      exact ⟨fun _ => ⟨rfl, rfl, rfl⟩, fun _ => ⟨rfl, rfl⟩⟩
    · rw [trialStep_none_tf ds s hsolve hA hB] at h
      injection h with h1 h2
      rw [← h1]
      exact ⟨fun _ => ⟨rfl, rfl, rfl⟩, fun hc => absurd hc hB⟩
    · rw [trialStep_none_ft ds s hsolve hA hB] at h
      injection h with h1 h2
      rw [← h1]
      exact ⟨fun hc => absurd hc hA, fun _ => ⟨rfl, rfl⟩⟩
    · rw [trialStep_none_ff ds s hsolve hA hB] at h
      injection h with h1 h2
      rw [← h1]
      exact ⟨fun hc => absurd hc hA, fun hc => absurd hc hB⟩
  · rw [trialStep_some ds s m hsolve] at h
    injection h with h1 h2
    exact absurd h2.symm (by simp)

lemma iter_inv (ds : ℕ → ℝ) (dist : ℝ) (n : ℕ) : StateInv (iterState ds dist n) := by
  induction n with
  | zero => exact initState_inv ds dist
  | succ m ih =>
    show StateInv (trialStep ds (iterState ds dist m)).1
    rcases hstep : trialStep ds (iterState ds dist m) with ⟨s1, o⟩
    exact step_inv ds _ s1 o hstep ih

lemma engage_eval (a : ROAPhaseAgent) (dir : ℝ) :
    a.engage_phase_drive dir = ⟨a.origin, a.pos, a.cycle + 1,
      a.origin + dir * (1.0 * 2 ^ a.cycle),
      |a.origin + dir * (1.0 * 2 ^ a.cycle) - a.pos| / 1.0,
      (a.origin + dir * (1.0 * 2 ^ a.cycle) - a.pos) /
        (|a.origin + dir * (1.0 * 2 ^ a.cycle) - a.pos| / 1.0),
      0, 1.0 * 2 ^ a.cycle⟩ := rfl

lemma delta_facts (dir e : ℝ) (hd : dir = 1 ∨ dir = -1) (he : e = 1 ∨ e = -1) (c : ℕ) :
    ∃ mn : ℕ, 0 < mn ∧ |dir * (1.0 * 2 ^ (c + 1)) - e * 2 ^ c| = (mn : ℝ) ∧
      ((dir * (1.0 * 2 ^ (c + 1)) - e * 2 ^ c) / |dir * (1.0 * 2 ^ (c + 1)) - e * 2 ^ c| = 1 ∨
       (dir * (1.0 * 2 ^ (c + 1)) - e * 2 ^ c) / |dir * (1.0 * 2 ^ (c + 1)) - e * 2 ^ c| = -1) := by
  have hpow : (0:ℝ) < 2 ^ c := by positivity
  rcases hd with hd | hd <;> rcases he with he | he <;> subst hd <;> subst he
  · refine ⟨2 ^ c, by positivity, ?_, ?_⟩
    · have h1 : (1:ℝ) * (1.0 * 2 ^ (c + 1)) - 1 * 2 ^ c = 2 ^ c := by
        norm_num
        ring
      rw [h1, abs_of_pos hpow]
      push_cast
      ring
    · left
      have h1 : (1:ℝ) * (1.0 * 2 ^ (c + 1)) - 1 * 2 ^ c = 2 ^ c := by
        norm_num
        ring
      rw [h1, abs_of_pos hpow, div_self (ne_of_gt hpow)]
  · refine ⟨3 * 2 ^ c, by positivity, ?_, ?_⟩
    · have h1 : (1:ℝ) * (1.0 * 2 ^ (c + 1)) - (-1) * 2 ^ c = 3 * 2 ^ c := by
        norm_num
        ring
      rw [h1, abs_of_pos (by positivity)]
      push_cast
      ring
    · left
      have h1 : (1:ℝ) * (1.0 * 2 ^ (c + 1)) - (-1) * 2 ^ c = 3 * 2 ^ c := by
        norm_num
        ring
      rw [h1, abs_of_pos (by positivity), div_self (by positivity)]
  · refine ⟨3 * 2 ^ c, by positivity, ?_, ?_⟩
    · have h1 : (-1:ℝ) * (1.0 * 2 ^ (c + 1)) - 1 * 2 ^ c = -(3 * 2 ^ c) := by
        norm_num
        ring
      rw [h1, abs_neg, abs_of_pos (by positivity)]
      push_cast
      ring
    · right
      have h1 : (-1:ℝ) * (1.0 * 2 ^ (c + 1)) - 1 * 2 ^ c = -(3 * 2 ^ c) := by
        norm_num
        ring
      rw [h1, abs_neg, abs_of_pos (by positivity), neg_div, div_self (by positivity)]
  · refine ⟨2 ^ c, by positivity, ?_, ?_⟩
    · have h1 : (-1:ℝ) * (1.0 * 2 ^ (c + 1)) - (-1) * 2 ^ c = -(2 ^ c) := by
        norm_num
        ring
      rw [h1, abs_neg, abs_of_pos hpow]
      push_cast
      ring
    · right
      have h1 : (-1:ℝ) * (1.0 * 2 ^ (c + 1)) - (-1) * 2 ^ c = -(2 ^ c) := by
        norm_num
        ring
      rw [h1, abs_neg, abs_of_pos hpow, neg_div, div_self (ne_of_gt hpow)]

lemma rem_zero_of_small (a : ROAPhaseAgent) (m : ℕ) (hm : a.duration - a.timer = (m : ℝ))
    (hz : |a.duration - a.timer| < 1e-9) : a.duration - a.timer = 0 := by
  rw [hm] at hz ⊢
  rw [Nat.abs_cast] at hz
  norm_num
  by_contra hne
  have h1 : 1 ≤ m := Nat.one_le_iff_ne_zero.2 (fun h0 => hne (by exact_mod_cast congrArg (Nat.cast (R := ℝ)) h0))
  have h2 : (1:ℝ) ≤ (m : ℝ) := by exact_mod_cast h1
  norm_num at hz
  linarith

lemma engage_phys (a : ROAPhaseAgent) (dir : ℝ) (hd : dir = 1 ∨ dir = -1)
    (ha : AgentPhys a) (hz : a.duration - a.timer = 0) :
    AgentPhys (a.engage_phase_drive dir) ∧ 0 < (a.engage_phase_drive dir).duration ∧
    (a.engage_phase_drive dir).target ≠ a.pos := by
  obtain ⟨hv, ⟨m, hm⟩, hpt, ⟨e, he, htg⟩, hc⟩ := ha
  have hpos : a.pos = a.target := by
    rw [← hpt, hz]
    ring
  obtain ⟨c1, hc1⟩ : ∃ c1, a.cycle = c1 + 1 := ⟨a.cycle - 1, (Nat.succ_pred_eq_of_pos hc).symm⟩
  have hcm1 : a.cycle - 1 = c1 := by omega
  have hΔeq : a.origin + dir * (1.0 * 2 ^ a.cycle) - a.pos
      = dir * (1.0 * 2 ^ (c1 + 1)) - e * 2 ^ c1 := by
    rw [hpos, htg, hcm1, hc1]
    ring
  obtain ⟨mn, hmn0, hmabs, hvel⟩ := delta_facts dir e hd he c1
  have habs : |a.origin + dir * (1.0 * 2 ^ a.cycle) - a.pos| = (mn : ℝ) := by
    rw [hΔeq]
    exact hmabs
  have habspos : (0:ℝ) < |a.origin + dir * (1.0 * 2 ^ a.cycle) - a.pos| := by
    rw [habs]
    exact_mod_cast hmn0
  have hΔne : a.origin + dir * (1.0 * 2 ^ a.cycle) - a.pos ≠ 0 := abs_pos.1 habspos
  have hdiv1 : |a.origin + dir * (1.0 * 2 ^ a.cycle) - a.pos| / 1.0
      = |a.origin + dir * (1.0 * 2 ^ a.cycle) - a.pos| := by norm_num
  rw [engage_eval]
  refine ⟨⟨?_, ⟨mn, ?_⟩, ?_, ⟨dir, hd, ?_⟩, ?_⟩, ?_, ?_⟩
  · show (a.origin + dir * (1.0 * 2 ^ a.cycle) - a.pos) /
        (|a.origin + dir * (1.0 * 2 ^ a.cycle) - a.pos| / 1.0) = 1 ∨
      (a.origin + dir * (1.0 * 2 ^ a.cycle) - a.pos) /
        (|a.origin + dir * (1.0 * 2 ^ a.cycle) - a.pos| / 1.0) = -1
    rw [hdiv1, hΔeq]
    exact hvel
  · show |a.origin + dir * (1.0 * 2 ^ a.cycle) - a.pos| / 1.0 - 0 = (mn : ℝ)
    rw [hdiv1, habs]
    ring
  · show a.pos + (a.origin + dir * (1.0 * 2 ^ a.cycle) - a.pos) /
        (|a.origin + dir * (1.0 * 2 ^ a.cycle) - a.pos| / 1.0) *
        (|a.origin + dir * (1.0 * 2 ^ a.cycle) - a.pos| / 1.0 - 0)
        = a.origin + dir * (1.0 * 2 ^ a.cycle)
    rw [hdiv1, sub_zero, div_mul_cancel₀ _ (abs_ne_zero.2 hΔne)]
    ring
  · show a.origin + dir * (1.0 * 2 ^ a.cycle) = a.origin + dir * 2 ^ (a.cycle + 1 - 1)
    norm_num
  · show 1 ≤ a.cycle + 1
    omega
  · show 0 < |a.origin + dir * (1.0 * 2 ^ a.cycle) - a.pos| / 1.0
    rw [hdiv1]
    exact habspos
  · show a.origin + dir * (1.0 * 2 ^ a.cycle) ≠ a.pos
    intro hcc
    exact hΔne (by rw [hcc]; ring)

lemma mk_phys (p dir : ℝ) (hd : dir = 1 ∨ dir = -1) :
    AgentPhys (mkROAPhaseAgent p dir) ∧ 0 < (mkROAPhaseAgent p dir).duration ∧
    (mkROAPhaseAgent p dir).target ≠ p := by
  unfold mkROAPhaseAgent
  rw [engage_eval]
  rcases hd with hd | hd <;> subst hd
  · refine ⟨⟨?_, ⟨1, ?_⟩, ?_, ⟨1, Or.inl rfl, ?_⟩, ?_⟩, ?_, ?_⟩ <;> norm_num
  · refine ⟨⟨?_, ⟨1, ?_⟩, ?_, ⟨-1, Or.inr rfl, ?_⟩, ?_⟩, ?_, ?_⟩ <;> norm_num

lemma legDt_cast (s : TrialState) (mA mB : ℕ)
    (hA : s.A.duration - s.A.timer = (mA : ℝ)) (hB : s.B.duration - s.B.timer = (mB : ℝ)) :
    legDt s = ((min mA mB : ℕ) : ℝ) := by
  unfold legDt
  rw [hA, hB, Nat.cast_min]

lemma advance_phys (s : TrialState) (hs : StatePhys s) :
    AgentPhys (advanceAgent s.A (legDt s)) ∧ AgentPhys (advanceAgent s.B (legDt s)) := by
  obtain ⟨⟨hvA, ⟨mA, hmA⟩, hptA, htfA, hcA⟩, ⟨hvB, ⟨mB, hmB⟩, hptB, htfB, hcB⟩⟩ := hs
  have hdt := legDt_cast s mA mB hmA hmB
  constructor
  · refine ⟨hvA, ⟨mA - min mA mB, ?_⟩, ?_, htfA, hcA⟩
    · show s.A.duration - (s.A.timer + legDt s) = ((mA - min mA mB : ℕ) : ℝ)
      rw [Nat.cast_sub (Nat.min_le_left mA mB), Nat.cast_min]
      rw [hdt, Nat.cast_min]
      have := hmA
      push_cast
      linarith
    · show s.A.pos + s.A.velocity * legDt s + s.A.velocity * (s.A.duration - (s.A.timer + legDt s)) = s.A.target
      linear_combination hptA
  · refine ⟨hvB, ⟨mB - min mA mB, ?_⟩, ?_, htfB, hcB⟩
    · show s.B.duration - (s.B.timer + legDt s) = ((mB - min mA mB : ℕ) : ℝ)
      rw [Nat.cast_sub (Nat.min_le_right mA mB), Nat.cast_min]
      rw [hdt, Nat.cast_min]
      have := hmB
      push_cast
      linarith
    · show s.B.pos + s.B.velocity * legDt s + s.B.velocity * (s.B.duration - (s.B.timer + legDt s)) = s.B.target
      linear_combination hptB

lemma step_phys (ds : ℕ → ℝ) (hds : ∀ i, ds i = 1 ∨ ds i = -1) (s s' : TrialState) (o : Option ℝ)
    (h : trialStep ds s = (s', o)) (hs : StatePhys s) : StatePhys s' := by
  have hadv := advance_phys s hs
  rcases hsolve : solve_roa_phase_locked_physics s.t (legDt s) s.A.pos s.A.velocity s.B.pos
      s.B.velocity s.A.cycle s.B.cycle
      (max s.A.current_search_radius s.B.current_search_radius) with _ | m
  · by_cases hA : |(advanceAgent s.A (legDt s)).duration - (advanceAgent s.A (legDt s)).timer| < 1e-9 <;>
    by_cases hB : |(advanceAgent s.B (legDt s)).duration - (advanceAgent s.B (legDt s)).timer| < 1e-9
    · rw [trialStep_none_tt ds s hsolve hA hB] at h
      injection h with h1 h2
      rw [← h1]
      obtain ⟨mA1, hmA1⟩ := hadv.1.2.1
      obtain ⟨mB1, hmB1⟩ := hadv.2.2.1
      exact ⟨(engage_phys _ _ (hds s.k) hadv.1 (rem_zero_of_small _ mA1 hmA1 hA)).1,
        (engage_phys _ _ (hds (s.k + 1)) hadv.2 (rem_zero_of_small _ mB1 hmB1 hB)).1⟩
    · rw [trialStep_none_tf ds s hsolve hA hB] at h
      injection h with h1 h2
      rw [← h1]
      obtain ⟨mA1, hmA1⟩ := hadv.1.2.1
      exact ⟨(engage_phys _ _ (hds s.k) hadv.1 (rem_zero_of_small _ mA1 hmA1 hA)).1, hadv.2⟩
    · rw [trialStep_none_ft ds s hsolve hA hB] at h
      injection h with h1 h2
      rw [← h1]
      obtain ⟨mB1, hmB1⟩ := hadv.2.2.1
      exact ⟨hadv.1, (engage_phys _ _ (hds s.k) hadv.2 (rem_zero_of_small _ mB1 hmB1 hB)).1⟩
    · rw [trialStep_none_ff ds s hsolve hA hB] at h
      injection h with h1 h2
      rw [← h1]
      exact hadv
  · rw [trialStep_some ds s m hsolve] at h
    injection h with h1 h2
    rw [← h1]
    exact hs

lemma initState_phys (ds : ℕ → ℝ) (hds : ∀ i, ds i = 1 ∨ ds i = -1) (dist : ℝ) :
    StatePhys (initState ds dist) :=
  ⟨(mk_phys 0.0 (ds 0) (hds 0)).1, (mk_phys dist (ds 1) (hds 1)).1⟩

lemma iter_phys (ds : ℕ → ℝ) (hds : ∀ i, ds i = 1 ∨ ds i = -1) (dist : ℝ) (n : ℕ) :
    StatePhys (iterState ds dist n) := by
  induction n with
  | zero => exact initState_phys ds hds dist
  | succ m ih =>
    show StatePhys (trialStep ds (iterState ds dist m)).1
    rcases hstep : trialStep ds (iterState ds dist m) with ⟨s1, o⟩
    exact step_phys ds hds _ s1 o hstep ih



/-- C1 counterexample: the Interaction Solver, called with
`legDuration = 0` (which is nonnegative), positions `0` and `1` and radius
`1`, takes the field-superposition branch and returns `some 0.001`, a value
strictly greater than `legDuration`, hence outside `[0, legDuration]`. -/
theorem claim_C1_counterexample :
    (0:ℝ) ≤ 0 ∧
    solve_roa_phase_locked_physics 0 0 0 0 1 0 0 0 1 = some 0.001 ∧
    ¬ ((0.001 : ℝ) ≤ (0 : ℝ)) := by
  refine ⟨le_refl 0, ?_, by norm_num⟩
  apply solve_field_branch
  · norm_num
  · have h : |(0:ℝ) - 1| = 1 := by norm_num
    rw [h]
    nlinarith [intensity_nonneg 0 0]

/-- C1 amended: for every call with `legDuration ≥ 0`, the Interaction Solver
returns either the absence value or a real offset within
`[0, max legDuration 0.001]`: the coincidence shortcut and the classical
fallback stay within `[0, legDuration]`, while the field-superposition branch
returns the constant `0.001`, which can exceed a `legDuration` smaller than
`0.001`. -/
theorem claim_C1_amended (t d pA vA pB vB : ℝ) (iA iB : ℕ) (r : ℝ)
    (hd : 0 ≤ d) :
    solve_roa_phase_locked_physics t d pA vA pB vB iA iB r = none ∨
    ∃ x, solve_roa_phase_locked_physics t d pA vA pB vB iA iB r = some x ∧
      0 ≤ x ∧ x ≤ max d 0.001 := by
  unfold solve_roa_phase_locked_physics
  dsimp only
  split_ifs with h1 h2 h3 h4
  · right
    refine ⟨0.0, rfl, by norm_num, ?_⟩
    have h00 : (0.0:ℝ) = 0 := by norm_num
    rw [h00, le_max_iff]
    left
    exact hd
  · right
    exact ⟨0.001, rfl, by norm_num, le_max_right _ _⟩
  · right
    refine ⟨(-(pA - pB)) / (vA - vB), rfl, h4.1, le_max_of_le_left h4.2⟩
  · left; rfl
  · left; rfl

/-- C1 amended, witness at a concrete input. -/
theorem claim_C1_amended_witness :
    (0:ℝ) ≤ 1 ∧
    (solve_roa_phase_locked_physics 0 1 0 0 1 0 0 0 1 = none ∨
     ∃ x, solve_roa_phase_locked_physics 0 1 0 0 1 0 0 0 1 = some x ∧
       0 ≤ x ∧ x ≤ max 1 0.001) :=
  ⟨by norm_num, claim_C1_amended 0 1 0 0 1 0 0 0 1 (by norm_num)⟩

/-- C2 counterexample: a concrete trial that exits the loop without any
meeting but records the value `1024`, not `1000.0`.  With every direction
draw equal to `+1` and initial separation `Dval = 10 ^ 9`, both agents walk
rightward in lockstep, every solver call returns the absence value, the loop
boundary times are `0, 1, 2, 4, ..., 512`, and the loop exits with global
time `512 + 512 = 1024 ≥ 1000`. -/
theorem claim_C2_counterexample :
    trialLoop ones 12 (initState ones Dval) = some (1024, false) ∧
    ((1024 : ℝ) ≠ 1000.0) := by
  constructor
  · rw [initState_eq_trace]
    exact trace_loop_full
  · norm_num

/-- C2 amended: whenever the trial loop exits without a meeting, the value it
records is the final global time, which is at least the horizon `1000.0` (and
can strictly exceed it, since the loop overshoots the horizon by up to the
last leg increment). -/
theorem claim_C2_amended (ds : ℕ → ℝ) (fuel : ℕ) (s : TrialState) (v : ℝ)
    (h : trialLoop ds fuel s = some (v, false)) : 1000.0 ≤ v :=
  trialLoop_timeout ds fuel s v h

/-- C2 amended, witness: a loop started at global time `1500` exits at once
without a meeting and the recorded value is at least the horizon. -/
theorem claim_C2_amended_witness : (1000.0 : ℝ) ≤ 1500 := by
  apply claim_C2_amended (fun _ => 1) 0 ⟨1500, mkROAPhaseAgent 0 1, mkROAPhaseAgent 0 1, 2⟩ 1500
  show (if (1500:ℝ) < 1000.0 then none else some ((1500:ℝ), false)) = some (1500, false)
  rw [if_neg (by norm_num)]

/-- C3: for an agent constructed at any position `p` (construction already
performs the first `engage_phase_drive` call), after `n` further calls to
`engage_phase_drive` the field `current_search_radius` equals `2 ^ n` and the
cycle counter equals `n + 1`; moreover every `engage_phase_drive` call uses
radius `2 ^ cycle` for the cycle value before the increment. -/
theorem claim_C3 (ds : ℕ → ℝ) (p d0 : ℝ) (n : ℕ) :
    (engageIter ds (mkROAPhaseAgent p d0) n).current_search_radius = 2 ^ n ∧
    (engageIter ds (mkROAPhaseAgent p d0) n).cycle = n + 1 ∧
    ∀ (a : ROAPhaseAgent) (dir : ℝ),
      (a.engage_phase_drive dir).current_search_radius = 2 ^ a.cycle :=
  ⟨(radius_after_n ds p d0 n).1, (radius_after_n ds p d0 n).2,
    fun a dir => engage_radius a dir⟩

/-- C4: with `initialSeparation = 0`, the very first Interaction Solver call
of every trial returns `some 0.0` (immediate coincidence), and the driver
returns exactly `some 0` for every positive trial count and fuel. -/
theorem claim_C4 (dss : ℕ → ℕ → ℝ) (fuel trials : ℕ)
    (hf : 1 ≤ fuel) (ht : 1 ≤ trials) :
    (∀ i, solve_roa_phase_locked_physics (initState (dss i) 0).t
      (legDt (initState (dss i) 0))
      (initState (dss i) 0).A.pos (initState (dss i) 0).A.velocity
      (initState (dss i) 0).B.pos (initState (dss i) 0).B.velocity
      (initState (dss i) 0).A.cycle (initState (dss i) 0).B.cycle
      (max (initState (dss i) 0).A.current_search_radius
        (initState (dss i) 0).B.current_search_radius) = some 0.0) ∧
    simulate_v31_final_completion dss fuel trials 0 = some 0 := by
  constructor
  · intro i
    apply solve_first_zero
    show (0.0 : ℝ) = 0
    norm_num
  · obtain ⟨f, rfl⟩ : ∃ f, fuel = f + 1 := ⟨fuel - 1, by omega⟩
    exact simulate_zero dss f trials

/-- C4 witness at a concrete input. -/
theorem claim_C4_witness :
    1 ≤ 1 ∧ simulate_v31_final_completion (fun _ _ => 1) 1 1 0 = some 0 :=
  ⟨le_refl 1, (claim_C4 (fun _ _ => 1) 1 1 (le_refl 1) (le_refl 1)).2⟩

/-- C5: whenever `|posA - posB| < 1e-4`, the Interaction Solver returns
`some 0.0`, regardless of all other arguments. -/
theorem claim_C5 (t d pA vA pB vB : ℝ) (iA iB : ℕ) (r : ℝ)
    (h : |pA - pB| < 1e-4) :
    solve_roa_phase_locked_physics t d pA vA pB vB iA iB r = some 0.0 := by
  unfold solve_roa_phase_locked_physics
  rw [if_pos h]

/-- C5 witness at a concrete input. -/
theorem claim_C5_witness :
    solve_roa_phase_locked_physics 0 1 0 0 0 0 0 0 1 = some 0.0 :=
  claim_C5 0 1 0 0 0 0 0 0 1 (by norm_num)

/-- C6: when the coincidence shortcut does not fire (`1e-4 ≤ |posA - posB|`)
and `|posA - posB|` is below the effective radius
`radius * ((intensityA + intensityB) / 2 + 0.5) * 2.5`, the Interaction
Solver returns exactly `some 0.001`. -/
theorem claim_C6 (t d pA vA pB vB : ℝ) (iA iB : ℕ) (r : ℝ)
    (h1 : 1e-4 ≤ |pA - pB|)
    (h2 : |pA - pB| < r * ((get_roa_phase_intensity t iA +
      get_roa_phase_intensity t iB) / 2.0 + 0.5) * 2.5) :
    solve_roa_phase_locked_physics t d pA vA pB vB iA iB r = some 0.001 :=
  solve_field_branch t d pA vA pB vB iA iB r (not_lt.2 h1) h2

/-- C6 witness at a concrete input. -/
theorem claim_C6_witness :
    solve_roa_phase_locked_physics 0 5 0 0 1 0 0 0 1 = some 0.001 := by
  apply claim_C6
  · norm_num
  · have h1 : |(0:ℝ) - 1| = 1 := by norm_num
    rw [h1]
    nlinarith [intensity_nonneg 0 0]

/-- C7: every `engage_phase_drive` call whose freshly drawn target differs
from the current position establishes, at the moment of planning:
`target = origin + direction * searchRadius`, a nonnegative `legDuration`
equal to `|target - position| / 1.0`, a velocity
`(target - position) / legDuration` of magnitude `1`, a reset timer, and an
incremented cycle counter. -/
theorem claim_C7 (a : ROAPhaseAgent) (dir : ℝ) (hdir : dir = 1 ∨ dir = -1)
    (hne : a.origin + dir * 2 ^ a.cycle ≠ a.pos) :
    (a.engage_phase_drive dir).target
      = a.origin + dir * (a.engage_phase_drive dir).current_search_radius ∧
    0 ≤ (a.engage_phase_drive dir).duration ∧
    (a.engage_phase_drive dir).duration
      = |(a.engage_phase_drive dir).target - a.pos| / 1.0 ∧
    (a.engage_phase_drive dir).velocity
      = ((a.engage_phase_drive dir).target - a.pos) /
        (a.engage_phase_drive dir).duration ∧
    |(a.engage_phase_drive dir).velocity| = 1 ∧
    (a.engage_phase_drive dir).timer = 0 ∧
    (a.engage_phase_drive dir).cycle = a.cycle + 1 := by
  have hΔ : a.origin + dir * (1.0 * 2 ^ a.cycle) - a.pos ≠ 0 := by
    intro h
    apply hne
    have h2 : a.origin + dir * (1.0 * 2 ^ a.cycle) = a.pos := by linarith
    rw [← h2]
    norm_num
  refine ⟨rfl, ?_, rfl, rfl, ?_, rfl, rfl⟩
  · show 0 ≤ |a.origin + dir * (1.0 * 2 ^ a.cycle) - a.pos| / 1.0
    positivity
  · show |(a.origin + dir * (1.0 * 2 ^ a.cycle) - a.pos) /
        (|a.origin + dir * (1.0 * 2 ^ a.cycle) - a.pos| / 1.0)| = 1
    have h10 : (1.0:ℝ) = 1 := by norm_num
    have hΔ1 : a.origin + dir * (1 * 2 ^ a.cycle) - a.pos ≠ 0 := by
      rw [one_mul]
      intro hc
      apply hne
      linarith
    rw [h10, div_one, abs_div, abs_abs, div_self (abs_ne_zero.2 hΔ1)]

/-- C7 witness: a freshly constructed agent at `0` engaged once more with
direction `+1`. -/
theorem claim_C7_witness :
    ((mkROAPhaseAgent 0 1).engage_phase_drive 1).timer = 0 ∧
    ((mkROAPhaseAgent 0 1).engage_phase_drive 1).cycle
      = (mkROAPhaseAgent 0 1).cycle + 1 := by
  have h := claim_C7 (mkROAPhaseAgent 0 1) 1 (Or.inl rfl) (by
    show (0:ℝ) + 1 * 2 ^ (1:ℕ) ≠ 0
    norm_num)
  exact ⟨h.2.2.2.2.2.1, h.2.2.2.2.2.2⟩

/-- C8: at every loop boundary state reachable in a trial, both agents have
their timer inside `[0, legDuration]`; and inside every loop iteration that
does not end the trial, each agent whose advanced timer reaches its duration
within the `1e-9` tolerance is immediately re-planned (fresh timer `0`,
incremented cycle) before the next solver call. -/
theorem claim_C8 (ds : ℕ → ℝ) (dist : ℝ) (n : ℕ) :
    StateInv (iterState ds dist n) ∧
    (∀ s s1 : TrialState, trialStep ds s = (s1, none) →
      (|(advanceAgent s.A (legDt s)).duration -
          (advanceAgent s.A (legDt s)).timer| < 1e-9 →
        s1.A = (advanceAgent s.A (legDt s)).engage_phase_drive (ds s.k) ∧
        s1.A.timer = 0 ∧ s1.A.cycle = s.A.cycle + 1) ∧
      (|(advanceAgent s.B (legDt s)).duration -
          (advanceAgent s.B (legDt s)).timer| < 1e-9 →
        s1.B.timer = 0 ∧ s1.B.cycle = s.B.cycle + 1)) :=
  ⟨iter_inv ds dist n, fun s s1 h => step_replan ds s s1 h⟩

/-- C8 witness: the invariant at the initial state of a concrete trial. -/
theorem claim_C8_witness : StateInv (iterState (fun _ => 1) 2 0) :=
  (claim_C8 (fun _ => 1) 2 0).1

/-- C9: with the random direction draws made explicit, the driver is a pure
function of its inputs: two runs with the same direction streams, the same
trial count, the same fuel and the same initial separation return the same
mean. -/
theorem claim_C9 (dss1 dss2 : ℕ → ℕ → ℝ) (fuel trials : ℕ) (d1 d2 : ℝ)
    (hds : dss1 = dss2) (hd : d1 = d2) :
    simulate_v31_final_completion dss1 fuel trials d1
      = simulate_v31_final_completion dss2 fuel trials d2 := by
  rw [hds, hd]

/-- C9 witness at a concrete input. -/
theorem claim_C9_witness :
    simulate_v31_final_completion (fun _ _ => 1) 1 1 2
      = simulate_v31_final_completion (fun _ _ => 1) 1 1 2 :=
  claim_C9 (fun _ _ => 1) (fun _ _ => 1) 1 1 2 2 rfl rfl

/-- C10: when every direction draw lies in `{1, -1}`, every loop boundary
state satisfies the exact-arithmetic physical invariant; advancing either
agent by the leg increment preserves it; and for any agent satisfying the
invariant whose timer has reached its duration within the `1e-9` tolerance
(the re-planning condition), any `engage_phase_drive` call chooses a target
different from the current position and computes a strictly positive
duration, so the velocity division never divides by zero; the same holds for
the construction-time call. -/
theorem claim_C10 (ds : ℕ → ℝ) (dist : ℝ) (hds : ∀ i, ds i = 1 ∨ ds i = -1)
    (n : ℕ) :
    StatePhys (iterState ds dist n) ∧
    (∀ s : TrialState, StatePhys s →
      AgentPhys (advanceAgent s.A (legDt s)) ∧
      AgentPhys (advanceAgent s.B (legDt s))) ∧
    (∀ a : ROAPhaseAgent, AgentPhys a → |a.duration - a.timer| < 1e-9 →
      ∀ d, (d = 1 ∨ d = -1) →
        (a.engage_phase_drive d).target ≠ a.pos ∧
        0 < (a.engage_phase_drive d).duration) ∧
    (∀ p d, (d = 1 ∨ d = -1) →
      (mkROAPhaseAgent p d).target ≠ p ∧
      0 < (mkROAPhaseAgent p d).duration) := by
  refine ⟨iter_phys ds hds dist n, advance_phys, ?_, ?_⟩
  · intro a ha hz d hd
    obtain ⟨m, hm⟩ := ha.2.1
    have h := engage_phys a d hd ha (rem_zero_of_small a m hm hz)
    exact ⟨h.2.2, h.2.1⟩
  · intro p d hd
    have h := mk_phys p d hd
    exact ⟨h.2.2, h.2.1⟩

/-- C10 witness: the physical invariant at the initial state of a concrete
trial with all direction draws equal to `+1`. -/
theorem claim_C10_witness : StatePhys (iterState (fun _ => 1) 2 0) :=
  (claim_C10 (fun _ => 1) 2 (fun _ => Or.inl rfl) 0).1


end ROA
